import Mathlib

/-! Verification of the `include_absolute_path` build-time path-resolution
pipeline (`src/lib.rs`): a shallow embedding of the four pipeline stages
(environment expansion, traversal validation, anchoring, canonicalization)
together with theorems about their behaviour.  Paths are Unix path strings;
machine-side effects (the process environment and the filesystem) are
passed in explicitly as functions. -/

namespace IncludeAbsolutePath

/-- Structural path components, mirroring `std::path::Component` on Unix
(the `Prefix` component does not occur on Unix). -/
inductive Component where
  | rootDir
  | curDir
  | parentDir
  | normal (s : String)
deriving DecidableEq

/-- Split a character list on the separator `/`, keeping empty segments,
the way the underlying byte string splits. -/
def splitSegs : List Char → List (List Char)
  | [] => [[]]
  | c :: rest =>
    if c = '/' then [] :: splitSegs rest
    else
      match splitSegs rest with
      | [] => [[c]]
      | seg :: segs => (c :: seg) :: segs

/-- Whether the path begins with a current-directory component: its first
byte is `.` and it is either the whole path or is followed by a separator
(mirrors the `include_cur_dir` computation of `std::path::Components`). -/
def leadingCurDir : List Char → Bool
  | ['.'] => true
  | '.' :: c :: _ => c = '/'
  | _ => false

/-- A non-empty, non-`.` path segment as a component: `..` is a
parent-directory marker, anything else a named segment. -/
def segComponent (seg : List Char) : Component :=
  if seg = ['.', '.'] then Component.parentDir else Component.normal (String.mk seg)

/-- The component sequence of a Unix path string, mirroring
`Path::components()`: a leading `/` yields `RootDir`; a leading `.`
segment yields `CurDir`; empty segments and interior `.` segments are
dropped; `..` segments become `ParentDir`. -/
def pathComponents (s : String) : List Component :=
  let cs := s.data
  let root := if cs.head? = some '/' then [Component.rootDir] else []
  let cur := if leadingCurDir cs then [Component.curDir] else []
  let body :=
    ((splitSegs cs).filter
      (fun seg => decide (seg ≠ []) && decide (seg ≠ ['.']))).map segComponent
  root ++ cur ++ body

/-- The `(up_count, total_components)` pair computed by the counting loop
of `contains_suspicious_patterns` in `src/lib.rs` (the Rust counters are
nonnegative machine integers; they are modelled as `Nat`). -/
def suspicious_counts (path : List Component) : Nat × Nat :=
  path.foldl
    (fun acc component =>
      (acc.1 + (if component = Component.parentDir then 1 else 0), acc.2 + 1))
    (0, 0)

/-- `contains_suspicious_patterns` from `src/lib.rs`: flag the path when
`up_count > 3`, or when `total_components > 0` and more than half of the
components are parent-directory markers (integer division). -/
def contains_suspicious_patterns (path : List Component) : Bool :=
  let up_count := (suspicious_counts path).1
  let total_components := (suspicious_counts path).2
  decide (up_count > 3) ||
    (decide (total_components > 0) && decide (up_count > total_components / 2))

/-- Specification-side count of parent-directory components. -/
def upCount (cs : List Component) : Nat :=
  cs.countP (fun c => decide (c = Component.parentDir))

theorem suspicious_counts_eq (cs : List Component) :
    suspicious_counts cs = (upCount cs, cs.length) := by
  have h : ∀ (l : List Component) (a b : Nat),
      l.foldl
        (fun acc component =>
          (acc.1 + (if component = Component.parentDir then 1 else 0), acc.2 + 1))
        (a, b) = (a + upCount l, b + l.length) := by
    intro l
    induction l with
    | nil => intro a b; simp [upCount]
    | cons c cs ih =>
      intro a b
      simp only [List.foldl_cons, ih, upCount, List.countP_cons, List.length_cons,
        Prod.mk.injEq]
      by_cases hc : c = Component.parentDir <;> simp [hc] <;> omega
  have := h cs 0 0
  simpa using this

/-- C1: the traversal validator classifies a component list as suspicious
exactly when `up > 3` or (`total > 0` and `up > total / 2` with integer
division); a path of four parent-directory segments is rejected, three
up-segments with four named segments are accepted, three with three are
accepted, and three with two are rejected. -/
theorem C1_suspicious_boundary :
    (∀ cs : List Component,
        contains_suspicious_patterns cs = true ↔
          (upCount cs > 3 ∨ (cs.length > 0 ∧ upCount cs > cs.length / 2)))
    ∧ contains_suspicious_patterns (pathComponents "../../../..") = true
    ∧ contains_suspicious_patterns (pathComponents "../../../a/b/c/d") = false
    ∧ contains_suspicious_patterns (pathComponents "../../../a/b/c") = false
    ∧ contains_suspicious_patterns (pathComponents "../../../a/b") = true := by
  refine ⟨?_, by decide, by decide, by decide, by decide⟩
  intro cs
  simp [contains_suspicious_patterns, suspicious_counts_eq]

/-- C10: the validator counts a leading root component toward the total
component count but not the up-count; the absolute path `/..` (up 1,
total 2) is accepted while the relative path `..` (up 1, total 1) is
rejected. -/
theorem C10_root_component_counting :
    (∀ cs : List Component,
        suspicious_counts (Component.rootDir :: cs)
          = ((suspicious_counts cs).1, (suspicious_counts cs).2 + 1))
    ∧ pathComponents "/.." = [Component.rootDir, Component.parentDir]
    ∧ suspicious_counts (pathComponents "/..") = (1, 2)
    ∧ contains_suspicious_patterns (pathComponents "/..") = false
    ∧ pathComponents ".." = [Component.parentDir]
    ∧ suspicious_counts (pathComponents "..") = (1, 1)
    ∧ contains_suspicious_patterns (pathComponents "..") = true := by
  refine ⟨?_, by decide, by decide, by decide, by decide, by decide, by decide⟩
  intro cs
  simp [suspicious_counts_eq, upCount, List.countP_cons]

/-- The opening-brace character, written by code point to keep it out of
literals. -/
def lbrace : Char := Char.ofNat 123

/-- The closing-brace character, written by code point. -/
def rbrace : Char := Char.ofNat 125

/-- The single-quote character, written by code point. -/
def squote : String := String.singleton (Char.ofNat 39)

/-- A failed environment-variable lookup, carrying the offending
variable's name (the `LookupError` of the expansion library). -/
structure LookupError where
  var_name : String
deriving DecidableEq

/-- Characters allowed in a bare `$NAME` variable name: alphanumerics and
underscore. -/
def isVarChar (c : Char) : Bool := c.isAlphanum || c = '_'

/-- Scanner state for environment expansion: plain text, just after a `$`,
inside a bare `$NAME` (accumulated name in reverse), or inside a
`$`-brace form (accumulated name in reverse). -/
inductive ScanMode where
  | normal
  | dollar
  | name (acc : List Char)
  | brace (acc : List Char)

/-- Modelled from the spec (§4.1) and the documented behaviour of the
`shellexpand::env` dependency, which is not part of this repository:
scan the string left to right; `$NAME` and brace-delimited names are
replaced by the environment value, a doubled dollar escapes to a literal
dollar, a dollar not followed by a variable pattern is literal text, and
a referenced variable that the environment does not supply is a terminal
`LookupError` naming it. -/
def scanExpand (env : String → Option String) :
    ScanMode → List Char → Except LookupError (List Char)
  | ScanMode.normal, [] => Except.ok []
  | ScanMode.normal, c :: rest =>
    if c = '$' then scanExpand env ScanMode.dollar rest
    else
      match scanExpand env ScanMode.normal rest with
      | Except.error e => Except.error e
      | Except.ok t => Except.ok (c :: t)
  | ScanMode.dollar, [] => Except.ok ['$']
  | ScanMode.dollar, c :: rest =>
    if c = '$' then
      match scanExpand env ScanMode.normal rest with
      | Except.error e => Except.error e
      | Except.ok t => Except.ok ('$' :: t)
    else if c = lbrace then scanExpand env (ScanMode.brace []) rest
    else if isVarChar c then scanExpand env (ScanMode.name [c]) rest
    else
      match scanExpand env ScanMode.normal rest with
      | Except.error e => Except.error e
      | Except.ok t => Except.ok ('$' :: c :: t)
  | ScanMode.name acc, [] =>
    match env (String.mk acc.reverse) with
    | none => Except.error ⟨String.mk acc.reverse⟩
    | some v => Except.ok v.data
  | ScanMode.name acc, c :: rest =>
    if isVarChar c then scanExpand env (ScanMode.name (c :: acc)) rest
    else
      match env (String.mk acc.reverse) with
      | none => Except.error ⟨String.mk acc.reverse⟩
      | some v =>
        if c = '$' then
          match scanExpand env ScanMode.dollar rest with
          | Except.error e => Except.error e
          | Except.ok t => Except.ok (v.data ++ t)
        else
          match scanExpand env ScanMode.normal rest with
          | Except.error e => Except.error e
          | Except.ok t => Except.ok (v.data ++ c :: t)
  | ScanMode.brace acc, [] => Except.ok ('$' :: lbrace :: acc.reverse)
  | ScanMode.brace acc, c :: rest =>
    if c = rbrace then
      match env (String.mk acc.reverse) with
      | none => Except.error ⟨String.mk acc.reverse⟩
      | some v =>
        match scanExpand env ScanMode.normal rest with
        | Except.error e => Except.error e
        | Except.ok t => Except.ok (v.data ++ t)
    else scanExpand env (ScanMode.brace (c :: acc)) rest

instance {ε α : Type} [DecidableEq ε] [DecidableEq α] : DecidableEq (Except ε α) := fun x y =>
  match x, y with
  | Except.error a, Except.error b =>
    if h : a = b then isTrue (by rw [h])
    else isFalse (fun hc => h (Except.error.inj hc))
  | Except.error _, Except.ok _ => isFalse (fun hc => Except.noConfusion hc)
  | Except.ok _, Except.error _ => isFalse (fun hc => Except.noConfusion hc)
  | Except.ok a, Except.ok b =>
    if h : a = b then isTrue (by rw [h])
    else isFalse (fun hc => h (Except.ok.inj hc))

/-- Environment expansion of a path string (the `shellexpand::env` call
in `src/lib.rs`). -/
def shellexpandEnv (env : String → Option String) (s : String) :
    Except LookupError String :=
  match scanExpand env ScanMode.normal s.data with
  | Except.error e => Except.error e
  | Except.ok t => Except.ok (String.mk t)

/-- Unix `Path::is_absolute`: the path has a root, i.e. begins with `/`. -/
def is_absolute (s : String) : Bool := s.data.head? = some '/'

/-- The text of a single non-root component. -/
def componentText : Component → String
  | Component.rootDir => "/"
  | Component.curDir => "."
  | Component.parentDir => ".."
  | Component.normal s => s

/-- Render a list of non-root components joined by separators. -/
def renderBody : List Component → String
  | [] => ""
  | [c] => componentText c
  | c :: rest => componentText c ++ "/" ++ renderBody rest

/-- Render a component list back to a path string (a leading root is the
separator itself). -/
def renderComponents : List Component → String
  | Component.rootDir :: rest => "/" ++ renderBody rest
  | cs => renderBody cs

/-- `Path::parent` from the standard library: drop the last component;
there is no parent when the path has no components or ends at its root. -/
def pathParent (s : String) : Option String :=
  let comps := pathComponents s
  match comps.getLast? with
  | none => none
  | some Component.rootDir => none
  | some _ => some (renderComponents comps.dropLast)

/-- `Path::join` on Unix for a relative or absolute right-hand side: an
absolute right side replaces the base, otherwise it is appended with a
separator when the base is non-empty and does not already end in one. -/
def pathJoin (base p : String) : String :=
  if is_absolute p then p
  else if base = "" then p
  else if base.data.getLast? = some '/' then base ++ p
  else base ++ "/" ++ p

/-- An operating-system path as returned by canonicalization: its lossy
display form and, when its bytes are valid text, its UTF-8 reading
(`Path::to_str`). -/
structure OsPath where
  display : String
  asUtf8 : Option String
deriving DecidableEq

/-- The machine-dependent effects consumed by the pipeline: filesystem
canonicalization (`Path::canonicalize`, an `Err` carries the OS error
text) and the build process's current working directory as the code
formats it (possibly the fallback text when unavailable). -/
structure Fs where
  canonicalize : String → Except String OsPath
  cwd : String

/-- The failure taxonomy of the pipeline, each constructor carrying
exactly the context the corresponding message in `src/lib.rs` embeds. -/
inductive MacroError where
  | envExpansion (var_name : String) (pathSpec : String)
  | suspiciousPath (pathSpec : String)
  | noParentDirectory (callerFile : String)
  | canonicalization (rawPath : String) (osError : String) (cwd : String)
  | nonUtf8 (display : String)
deriving DecidableEq

/-- The anchoring stage of `include_absolute_path`: an absolute expanded
path is used as is; otherwise it is joined onto the parent directory of
the caller file, and a caller file without a parent is a terminal
failure. -/
def resolveRaw (callerFile expanded : String) : Except MacroError String :=
  if is_absolute expanded then Except.ok expanded
  else
    match pathParent callerFile with
    | none => Except.error (MacroError.noParentDirectory callerFile)
    | some parent => Except.ok (pathJoin parent expanded)

/-- The canonicalization stage of `include_absolute_path`: canonicalize
the raw path (failure carries the raw path, the OS error text and the
current working directory) and convert the result to UTF-8 text
(failure carries the display form). -/
def canonStage (fs : Fs) (raw : String) : Except MacroError String :=
  match fs.canonicalize raw with
  | Except.error e => Except.error (MacroError.canonicalization raw e fs.cwd)
  | Except.ok abs =>
    match abs.asUtf8 with
    | none => Except.error (MacroError.nonUtf8 abs.display)
    | some s => Except.ok s

/-- The `include_absolute_path` pipeline of `src/lib.rs`: expand
environment variables in the path spec, reject suspicious traversal
patterns in the expanded path, anchor a relative path at the caller
file's parent directory, then canonicalize and convert to text.  The
suspicious-path diagnostic carries the original path spec. -/
def include_absolute_path (env : String → Option String) (fs : Fs)
    (callerFile path : String) : Except MacroError String :=
  match shellexpandEnv env path with
  | Except.error e => Except.error (MacroError.envExpansion e.var_name path)
  | Except.ok expanded =>
    if contains_suspicious_patterns (pathComponents expanded) then
      Except.error (MacroError.suspiciousPath path)
    else
      match resolveRaw callerFile expanded with
      | Except.error e => Except.error e
      | Except.ok raw => canonStage fs raw

/-- The diagnostic message built for a suspicious path in `src/lib.rs`,
with the format argument spliced in. -/
def suspicious_message (path : String) : String :=
  "Path " ++ squote ++ path ++ squote ++
    " contains suspicious traversal patterns. For security reasons, paths with excessive " ++
    squote ++ ".." ++ squote ++ " segments are not allowed."

/-- An environment with no variables set. -/
def envNone : String → Option String := fun _ => none

/-- An environment that sets exactly `HOME`. -/
def envHome : String → Option String :=
  fun v => if v = "HOME" then some "/home/alice" else none

/-- A filesystem on which canonicalization echoes the raw path as an
existing UTF-8 path. -/
def fsEcho : Fs := ⟨fun s => Except.ok ⟨s, some s⟩, "/build"⟩

/-- A filesystem on which every canonicalization fails with the usual
missing-entry OS error. -/
def fsMissing : Fs :=
  ⟨fun _ => Except.error "No such file or directory (os error 2)", "/build"⟩

/-- A filesystem whose canonical paths are not valid UTF-8. -/
def fsNonUtf8 : Fs := ⟨fun s => Except.ok ⟨s, none⟩, "/build"⟩

/-- No character of the list is a dollar sign. -/
def noDollar (l : List Char) : Bool := l.all (fun c => !(c = '$' : Bool))

/-- Every character of the list may appear in a bare variable name. -/
def allVarChars (l : List Char) : Bool := l.all isVarChar

/-- The list is empty or does not begin with a variable-name character. -/
def headNotVar : List Char → Bool
  | [] => true
  | c :: _ => !(isVarChar c)

theorem scanExpand_error_unset (env : String → Option String) :
    ∀ (l : List Char) (m : ScanMode) (e : LookupError),
      scanExpand env m l = Except.error e → env e.var_name = none := by
  intro l
  induction l with
  | nil =>
    intro m e h
    cases m with
    | normal => exact absurd h (by simp [scanExpand])
    | dollar => exact absurd h (by simp [scanExpand])
    | brace acc => exact absurd h (by simp [scanExpand])
    | name acc =>
      simp only [scanExpand] at h
      split at h
      · rename_i henv
        cases h
        simpa using henv
      · cases h
  | cons c rest ih =>
    intro m e h
    cases m with
    | normal =>
      simp only [scanExpand] at h
      split at h
      · exact ih _ _ h
      · split at h
        · rename_i e2 hr
          cases h
          exact ih _ _ hr
        · cases h
    | dollar =>
      simp only [scanExpand] at h
      split at h
      · split at h
        · rename_i e2 hr
          cases h
          exact ih _ _ hr
        · cases h
      · split at h
        · exact ih _ _ h
        · split at h
          · exact ih _ _ h
          · split at h
            · rename_i e2 hr
              cases h
              exact ih _ _ hr
            · cases h
    | name acc =>
      simp only [scanExpand] at h
      split at h
      · exact ih _ _ h
      · split at h
        · rename_i henv
          cases h
          simpa using henv
        · split at h
          · split at h
            · rename_i e2 hr
              cases h
              exact ih _ _ hr
            · cases h
          · split at h
            · rename_i e2 hr
              cases h
              exact ih _ _ hr
            · cases h
    | brace acc =>
      simp only [scanExpand] at h
      split at h
      · split at h
        · rename_i henv
          cases h
          simpa using henv
        · split at h
          · rename_i e2 hr
            cases h
            exact ih _ _ hr
          · cases h
      · exact ih _ _ h

theorem scan_normal_nodollar (env : String → Option String) :
    ∀ l : List Char, noDollar l = true →
      scanExpand env ScanMode.normal l = Except.ok l := by
  intro l
  induction l with
  | nil => intro _; simp [scanExpand]
  | cons c rest ih =>
    intro h
    simp only [noDollar, List.all_cons, Bool.and_eq_true, Bool.not_eq_true',
      decide_eq_false_iff_not] at h
    have hc : ¬ c = '$' := h.1
    have hr := ih (by simpa [noDollar] using h.2)
    simp only [scanExpand, if_neg hc, hr]

theorem scan_normal_append_nodollar (env : String → Option String) :
    ∀ (l t : List Char), noDollar l = true →
      scanExpand env ScanMode.normal (l ++ t)
        = match scanExpand env ScanMode.normal t with
          | Except.error e => Except.error e
          | Except.ok r => Except.ok (l ++ r) := by
  intro l
  induction l with
  | nil =>
    intro t _
    cases ht : scanExpand env ScanMode.normal t <;> simp [ht]
  | cons c rest ih =>
    intro t h
    simp only [noDollar, List.all_cons, Bool.and_eq_true, Bool.not_eq_true',
      decide_eq_false_iff_not] at h
    have hc : ¬ c = '$' := h.1
    have hr := ih t (by simpa [noDollar] using h.2)
    simp only [List.cons_append, scanExpand, if_neg hc, List.append_eq]
    rw [hr]
    cases ht : scanExpand env ScanMode.normal t <;> simp [ht]

theorem scan_name_collect (env : String → Option String) :
    ∀ (cs acc t : List Char), allVarChars cs = true →
      scanExpand env (ScanMode.name acc) (cs ++ t)
        = scanExpand env (ScanMode.name (cs.reverse ++ acc)) t := by
  intro cs
  induction cs with
  | nil => intro acc t _; simp
  | cons c rest ih =>
    intro acc t h
    simp only [allVarChars, List.all_cons, Bool.and_eq_true] at h
    have hv : isVarChar c = true := h.1
    have hr := ih (c :: acc) t (by simpa [allVarChars] using h.2)
    simp only [List.cons_append, scanExpand, if_pos hv, List.append_eq]
    rw [hr]
    simp [List.reverse_cons, List.append_assoc]

theorem isVarChar_ne_dollar {c : Char} (h : isVarChar c = true) : ¬ c = '$' := by
  intro hc; rw [hc] at h; exact absurd h (by decide)

theorem isVarChar_ne_lbrace {c : Char} (h : isVarChar c = true) : ¬ c = lbrace := by
  intro hc; rw [hc] at h; exact absurd h (by decide)

theorem scan_name_finish (env : String → Option String)
    (acc post : List Char) (value : String)
    (henv : env (String.mk acc.reverse) = some value)
    (hnd : noDollar post = true) (hnv : headNotVar post = true) :
    scanExpand env (ScanMode.name acc) post = Except.ok (value.data ++ post) := by
  cases post with
  | nil => simp [scanExpand, henv]
  | cons c rest =>
    simp only [noDollar, List.all_cons, Bool.and_eq_true, Bool.not_eq_true',
      decide_eq_false_iff_not] at hnd
    have hc : ¬ c = '$' := hnd.1
    have hv : ¬ isVarChar c = true := by
      simpa [headNotVar] using hnv
    have hrest := scan_normal_nodollar env rest (by simpa [noDollar] using hnd.2)
    simp only [scanExpand, if_neg hv, henv, if_neg hc, hrest]

theorem string_data_append (a b : String) : (a ++ b).data = a.data ++ b.data := by
  cases a; cases b; rfl

/-- C4: a path spec whose expansion hits an unset environment variable
always fails with `EnvExpansionError` carrying that variable's name and
the original path spec, the named variable is indeed unset, and no later
stage runs (the result is the same for every filesystem and caller). -/
theorem C4_missing_variable (env : String → Option String) (path : String)
    (e : LookupError) (hexp : shellexpandEnv env path = Except.error e) :
    env e.var_name = none
    ∧ ∀ (fs : Fs) (caller : String),
        include_absolute_path env fs caller path
          = Except.error (MacroError.envExpansion e.var_name path) := by
  constructor
  · unfold shellexpandEnv at hexp
    cases hs : scanExpand env ScanMode.normal path.data with
    | error e2 =>
      rw [hs] at hexp
      cases hexp
      exact scanExpand_error_unset env _ _ _ hs
    | ok t => rw [hs] at hexp; simp at hexp
  · intro fs caller
    simp [include_absolute_path, hexp]

/-- C4 witness: with no variables set, `$MISSING/cfg` fails with the
expansion error naming `MISSING` and the original spec. -/
theorem C4_missing_variable_witness :
    envNone "MISSING" = none
    ∧ include_absolute_path envNone fsEcho "src/main.rs" "$MISSING/cfg"
        = Except.error (MacroError.envExpansion "MISSING" "$MISSING/cfg") := by
  have h := C4_missing_variable envNone "$MISSING/cfg" ⟨"MISSING"⟩ (by decide)
  exact ⟨h.1, h.2 fsEcho "src/main.rs"⟩

/-- C6: environment expansion is the identity on a path spec with no
dollar tokens, and replaces a single `$NAME` token whose variable is set
by its value, leaving the dollar-free remainder untouched. -/
theorem C6_expansion_identity :
    (∀ (env : String → Option String) (s : String),
        noDollar s.data = true → shellexpandEnv env s = Except.ok s)
    ∧ (∀ (env : String → Option String) (pre nm post value : String),
        noDollar pre.data = true → noDollar post.data = true →
        nm.data ≠ [] → allVarChars nm.data = true →
        headNotVar post.data = true →
        env nm = some value →
        shellexpandEnv env (pre ++ "$" ++ nm ++ post)
          = Except.ok (pre ++ value ++ post)) := by
  constructor
  · intro env s h
    unfold shellexpandEnv
    rw [scan_normal_nodollar env s.data h]
  · intro env pre nm post value hpre hpost hne hvar hhead henv
    unfold shellexpandEnv
    have hdata : (pre ++ "$" ++ nm ++ post).data
        = pre.data ++ ('$' :: (nm.data ++ post.data)) := by
      simp [string_data_append]
    rw [hdata]
    rw [scan_normal_append_nodollar env pre.data ('$' :: (nm.data ++ post.data)) hpre]
    have hstep : scanExpand env ScanMode.normal ('$' :: (nm.data ++ post.data))
        = scanExpand env ScanMode.dollar (nm.data ++ post.data) := by
      simp [scanExpand]
    rw [hstep]
    cases hnm : nm.data with
    | nil => exact absurd hnm hne
    | cons c cs =>
      rw [hnm] at hvar
      simp only [allVarChars, List.all_cons, Bool.and_eq_true] at hvar
      have hv : isVarChar c = true := hvar.1
      have hstep2 : scanExpand env ScanMode.dollar ((c :: cs) ++ post.data)
          = scanExpand env (ScanMode.name [c]) (cs ++ post.data) := by
        simp only [List.cons_append, scanExpand, if_neg (isVarChar_ne_dollar hv),
          if_neg (isVarChar_ne_lbrace hv), if_pos hv, List.append_eq]
      rw [hstep2]
      rw [scan_name_collect env cs [c] post.data (by simpa [allVarChars] using hvar.2)]
      have hacc : (cs.reverse ++ [c]).reverse = c :: cs := by
        simp
      have henv2 : env (String.mk ((cs.reverse ++ [c]).reverse)) = some value := by
        rw [hacc]
        have : String.mk (c :: cs) = nm := by
          rw [← hnm]
        rw [this]; exact henv
      rw [scan_name_finish env (cs.reverse ++ [c]) post.data value henv2 hpost hhead]
      have hfin : String.mk (pre.data ++ (value.data ++ post.data))
          = pre ++ value ++ post := by
        have hd : (pre ++ value ++ post).data
            = pre.data ++ (value.data ++ post.data) := by
          simp [string_data_append]
        rw [← hd]
      show Except.ok (String.mk (pre.data ++ (value.data ++ post.data)))
          = Except.ok (pre ++ value ++ post)
      exact congrArg Except.ok hfin

/-- C6 witness: a dollar-free spec expands to itself, and `$HOME/cfg`
with `HOME=/home/alice` expands to `/home/alice/cfg`. -/
theorem C6_expansion_identity_witness :
    shellexpandEnv envHome "etc/hosts" = Except.ok "etc/hosts"
    ∧ shellexpandEnv envHome ("" ++ "$" ++ "HOME" ++ "/cfg")
        = Except.ok ("" ++ "/home/alice" ++ "/cfg") := by
  constructor
  · exact C6_expansion_identity.1 envHome "etc/hosts" (by decide)
  · exact C6_expansion_identity.2 envHome "" "HOME" "/cfg" "/home/alice"
      (by decide) (by decide) (by decide) (by decide) (by decide) (by decide)

/-- C2: once expansion succeeds and the traversal check passes, an
already-absolute expanded path goes to canonicalization unchanged; for a
relative one, a caller location without a parent directory fails with
`NoParentDirectoryError` naming the caller, and otherwise the result is
the canonicalization of the plain join (no normalization) of the
caller's parent directory with the expanded path. -/
theorem C2_anchor_resolution (env : String → Option String) (fs : Fs)
    (caller path expanded : String)
    (hexp : shellexpandEnv env path = Except.ok expanded)
    (hsusp : contains_suspicious_patterns (pathComponents expanded) = false) :
    (is_absolute expanded = true →
      include_absolute_path env fs caller path = canonStage fs expanded)
    ∧ (is_absolute expanded = false → pathParent caller = none →
      include_absolute_path env fs caller path
        = Except.error (MacroError.noParentDirectory caller))
    ∧ (∀ parent, is_absolute expanded = false → pathParent caller = some parent →
      include_absolute_path env fs caller path
        = canonStage fs (pathJoin parent expanded)) := by
  refine ⟨?_, ?_, ?_⟩
  · intro habs
    simp [include_absolute_path, hexp, hsusp, resolveRaw, habs]
  · intro habs hpar
    simp [include_absolute_path, hexp, hsusp, resolveRaw, habs, hpar]
  · intro parent habs hpar
    simp [include_absolute_path, hexp, hsusp, resolveRaw, habs, hpar]

/-- C2 witness: caller `src/main.rs` with relative spec `b.txt` resolves
through the join of `src` and `b.txt`. -/
theorem C2_anchor_resolution_witness :
    include_absolute_path envNone fsEcho "src/main.rs" "b.txt"
      = canonStage fsEcho (pathJoin "src" "b.txt") := by
  have h := C2_anchor_resolution envNone fsEcho "src/main.rs" "b.txt" "b.txt"
    (by decide) (by decide)
  exact h.2.2 "src" (by decide) (by decide)

/-- C3: a path spec whose expansion trips the traversal heuristic makes
the pipeline fail with `SuspiciousPathError` for every filesystem and
every caller location — the anchoring and canonicalization stages never
influence the result. -/
theorem C3_rejected_before_filesystem (env : String → Option String)
    (path expanded : String)
    (hexp : shellexpandEnv env path = Except.ok expanded)
    (hsusp : contains_suspicious_patterns (pathComponents expanded) = true) :
    ∀ (fs : Fs) (caller : String),
      include_absolute_path env fs caller path
        = Except.error (MacroError.suspiciousPath path) := by
  intro fs caller
  simp [include_absolute_path, hexp, hsusp]

/-- C3 witness: `../../../../etc/passwd` (four up-segments) is rejected
even on a filesystem where every canonicalization would fail. -/
theorem C3_rejected_before_filesystem_witness :
    include_absolute_path envNone fsMissing "src/main.rs" "../../../../etc/passwd"
      = Except.error (MacroError.suspiciousPath "../../../../etc/passwd") :=
  C3_rejected_before_filesystem envNone "../../../../etc/passwd"
    "../../../../etc/passwd" (by decide) (by decide) fsMissing "src/main.rs"

/-- C5: when every earlier stage passes and canonicalization of the
resolved raw path fails, the pipeline fails with `CanonicalizationError`
carrying the raw path, the OS error text and the build process's current
working directory, and returns no string. -/
theorem C5_canonicalization_failure (env : String → Option String) (fs : Fs)
    (caller path expanded raw : String) (e : String)
    (hexp : shellexpandEnv env path = Except.ok expanded)
    (hsusp : contains_suspicious_patterns (pathComponents expanded) = false)
    (hraw : resolveRaw caller expanded = Except.ok raw)
    (hcanon : fs.canonicalize raw = Except.error e) :
    include_absolute_path env fs caller path
      = Except.error (MacroError.canonicalization raw e fs.cwd) := by
  simp [include_absolute_path, hexp, hsusp, hraw, canonStage, hcanon]

/-- C5 witness: a nonexistent `b.txt` relative to `src/main.rs` fails
with the canonicalization error carrying raw path, OS error and the
working directory. -/
theorem C5_canonicalization_failure_witness :
    include_absolute_path envNone fsMissing "src/main.rs" "b.txt"
      = Except.error (MacroError.canonicalization "src/b.txt"
          "No such file or directory (os error 2)" "/build") :=
  C5_canonicalization_failure envNone fsMissing "src/main.rs" "b.txt" "b.txt"
    "src/b.txt" "No such file or directory (os error 2)"
    (by decide) (by decide) (by decide) (by decide)

/-- C7: when the expanded path is absolute, the result does not depend on
the caller location; with the traversal check also passing it is exactly
the canonicalization of that absolute path. -/
theorem C7_absolute_caller_independence (env : String → Option String)
    (path expanded : String)
    (hexp : shellexpandEnv env path = Except.ok expanded)
    (habs : is_absolute expanded = true) :
    (∀ (fs : Fs) (c1 c2 : String),
        include_absolute_path env fs c1 path = include_absolute_path env fs c2 path)
    ∧ (contains_suspicious_patterns (pathComponents expanded) = false →
        ∀ (fs : Fs) (caller : String),
          include_absolute_path env fs caller path = canonStage fs expanded) := by
  constructor
  · intro fs c1 c2
    cases hs : contains_suspicious_patterns (pathComponents expanded) <;>
      simp [include_absolute_path, hexp, hs, resolveRaw, habs]
  · intro hsusp fs caller
    simp [include_absolute_path, hexp, hsusp, resolveRaw, habs]

/-- C7 witness: the absolute spec `/etc/hosts` resolves identically from
two different caller files. -/
theorem C7_absolute_caller_independence_witness :
    include_absolute_path envNone fsEcho "src/main.rs" "/etc/hosts"
      = include_absolute_path envNone fsEcho "other/dir/lib.rs" "/etc/hosts" :=
  (C7_absolute_caller_independence envNone "/etc/hosts" "/etc/hosts"
    (by decide) (by decide)).1 fsEcho "src/main.rs" "other/dir/lib.rs"

/-- C8 counterexample: on `../../../..` the heuristic trips with up-count
4 and total count 4, yet the produced error carries only the path spec,
and the full diagnostic message contains no digit at all — the up-count
and total component count are not part of the error's context. -/
theorem C8_counterexample :
    include_absolute_path envNone fsEcho "src/main.rs" "../../../.."
      = Except.error (MacroError.suspiciousPath "../../../..")
    ∧ suspicious_counts (pathComponents "../../../..") = (4, 4)
    ∧ (suspicious_message "../../../..").data.all (fun c => !c.isDigit) = true := by
  refine ⟨by decide, by decide, by decide⟩

/-- C8 (amended): whenever the traversal heuristic trips, the resulting
suspicious-path error carries the path spec as its context (and nothing
else: any error the pipeline returns in that situation is exactly the
suspicious-path error built from the path spec). -/
theorem C8_amended_error_context (env : String → Option String) (fs : Fs)
    (caller path expanded : String)
    (hexp : shellexpandEnv env path = Except.ok expanded)
    (hsusp : contains_suspicious_patterns (pathComponents expanded) = true) :
    include_absolute_path env fs caller path
      = Except.error (MacroError.suspiciousPath path)
    ∧ ∀ e, include_absolute_path env fs caller path = Except.error e →
        e = MacroError.suspiciousPath path := by
  have hmain : include_absolute_path env fs caller path
      = Except.error (MacroError.suspiciousPath path) := by
    simp [include_absolute_path, hexp, hsusp]
  refine ⟨hmain, ?_⟩
  intro e he
  rw [hmain] at he
  exact (Except.error.inj he).symm

/-- C8 amended witness: `../../../x` (up 3 of 4 components) trips the
heuristic and the error context is the path spec. -/
theorem C8_amended_error_context_witness :
    include_absolute_path envNone fsEcho "lib/a.rs" "../../../x"
      = Except.error (MacroError.suspiciousPath "../../../x") :=
  (C8_amended_error_context envNone fsEcho "lib/a.rs" "../../../x" "../../../x"
    (by decide) (by decide)).1

/-- C9: no failure is silently swallowed — the pipeline returns a string
only when every stage succeeded (expansion, traversal check, anchoring,
canonicalization and the UTF-8 conversion); contrapositively, any stage
failure surfaces as the pipeline's error result. -/
theorem C9_no_failure_swallowed (env : String → Option String) (fs : Fs)
    (caller path : String) :
    ∀ s : String, include_absolute_path env fs caller path = Except.ok s →
      ∃ expanded raw osp,
        shellexpandEnv env path = Except.ok expanded
        ∧ contains_suspicious_patterns (pathComponents expanded) = false
        ∧ resolveRaw caller expanded = Except.ok raw
        ∧ fs.canonicalize raw = Except.ok osp
        ∧ osp.asUtf8 = some s := by
  intro s h
  unfold include_absolute_path at h
  split at h
  · cases h
  · rename_i expanded hexp
    split at h
    · cases h
    · rename_i hsusp
      split at h
      · cases h
      · rename_i raw hraw
        unfold canonStage at h
        split at h
        · cases h
        · rename_i osp hcanon
          split at h
          · cases h
          · rename_i t hutf
            have ht : t = s := Except.ok.inj h
            exact ⟨expanded, raw, osp, hexp, by simpa using hsusp, hraw, hcanon,
              by rw [hutf]; exact congrArg some ht⟩

/-- C9 witness: a fully successful run certifies all five stages. -/
theorem C9_no_failure_swallowed_witness :
    ∃ expanded raw osp,
      shellexpandEnv envNone "a.txt" = Except.ok expanded
      ∧ contains_suspicious_patterns (pathComponents expanded) = false
      ∧ resolveRaw "src/main.rs" expanded = Except.ok raw
      ∧ fsEcho.canonicalize raw = Except.ok osp
      ∧ osp.asUtf8 = some "src/a.txt" :=
  C9_no_failure_swallowed envNone fsEcho "src/main.rs" "a.txt" "src/a.txt" (by decide)

end IncludeAbsolutePath
